import Mathlib

/-!
Verification development for the `e2b_code_interpreter.models` module
(python/e2b_code_interpreter/models.py).

The module's values are shallowly embedded:

* A Python `dict` keyed by MIME-type strings is an insertion-ordered
  association list `Dict := List (MIMEType × String)`.
* Python objects are passed by reference, and `Result.__init__` both
  deep-copies its `data` argument and mutates it in place via `pop`.
  To make those effects statable we use a tiny heap: a list of dict
  cells addressed by `Nat` references.  `copy.deepcopy(data)` allocates
  a fresh cell holding the current value of `data`'s cell; `data.pop(k)`
  rewrites `data`'s cell in place.
* A failing `pop` (missing "text/plain") is an `Except.error (.keyError _)`.
-/

set_option autoImplicit false

namespace CodeInterpreter

/-- `MIMEType` in the source is a plain string subclass used only as a key. -/
abbrev MIMEType := String

/-- A Python dict from MIME type to payload string, as an insertion-ordered
association list with (by dict semantics) unique keys. -/
abbrev Dict := List (MIMEType × String)

namespace Dict

/-- `d[k]` lookup: value of the first (only) entry with key `k`. -/
def get? (d : Dict) (k : String) : Option String :=
  (d.find? (fun p => p.1 == k)).map Prod.snd

/-- Removal of key `k` from the dict, as performed by `d.pop(k)`. -/
def erase (d : Dict) (k : String) : Dict :=
  d.filter (fun p => p.1 != k)

end Dict

/-- The Python lookup error raised by `data.pop(k)` when `k` is absent. -/
inductive PyError where
  | keyError (k : String)
deriving DecidableEq

/-- The store of dict objects: cell `r` is the dict currently referenced
by address `r`. -/
structure Heap where
  cells : List Dict
deriving DecidableEq

/-- Read the list cell at index `i` (empty dict for a dangling index). -/
def readCells : List Dict → Nat → Dict
  | [], _ => []
  | d :: _, 0 => d
  | _ :: ds, n + 1 => readCells ds n

namespace Heap

/-- Dereference `r`: the dict object it points to. -/
def read (h : Heap) (r : Nat) : Dict := readCells h.cells r

/-- In-place update of the dict object at `r`. -/
def write (h : Heap) (r : Nat) (d : Dict) : Heap := ⟨h.cells.set r d⟩

/-- Allocate a fresh dict object holding `d`; returns the new heap and the
fresh reference (as `copy.deepcopy` does for a dict of strings). -/
def alloc (h : Heap) (d : Dict) : Heap × Nat :=
  (⟨h.cells ++ [d]⟩, h.cells.length)

/-- The effect of the expression `data.pop(k, None)` on the object at `r`:
yields the looked-up value (if any) and removes the key in place. -/
def popKey (h : Heap) (r : Nat) (k : String) : Option String × Heap :=
  ((h.read r).get? k, h.write r ((h.read r).erase k))

end Heap

/-- `Error` (pydantic model): exception name, value and raw traceback lines. -/
structure Error where
  name : String
  value : String
  traceback_raw : List String
deriving DecidableEq

/-- `Error.traceback`: the source returns `"\n".join(self.traceback_raw)`. -/
def Error.traceback (e : Error) : String :=
  String.intercalate "\n" e.traceback_raw

/-- The `Result` object after construction.  `raw` and `extra` hold dict
references (Python attributes store object references); the named MIME
fields hold extracted payloads.  Field order follows the class body. -/
structure Result where
  text : String
  html : Option String
  markdown : Option String
  svg : Option String
  png : Option String
  jpeg : Option String
  pdf : Option String
  latex : Option String
  json : Option String
  javascript : Option String
  extra : Nat
  is_main_result : Bool
  raw : Nat
deriving DecidableEq

/-- The ten well-known MIME keys extracted into named fields, in the order
the constructor pops them. -/
def wellKnownKeys : List String :=
  ["text/plain", "text/html", "text/markdown", "image/svg+xml", "image/png",
   "image/jpeg", "application/pdf", "text/latex", "application/json",
   "application/javascript"]

/-- `Result.__init__(self, is_main_result, data)`, line by line:
`self.raw = copy.deepcopy(data)` allocates a fresh cell with `data`'s
current value; `self.text = data.pop("text/plain")` raises `KeyError` when
the key is missing, otherwise removes it in place; the nine
`data.pop(key, None)` calls remove each optional key in place; finally
`self.extra = data` stores the reference to the (now stripped) argument. -/
def Result.init (h : Heap) (is_main_result : Bool) (data : Nat) :
    Except PyError (Heap × Result) :=
  let a := h.alloc (h.read data)
  let h := a.1
  let raw := a.2
  match (h.read data).get? "text/plain" with
  | none => .error (.keyError "text/plain")
  | some text =>
    let h := h.write data ((h.read data).erase "text/plain")
    let p1 := h.popKey data "text/html"
    let html := p1.1
    let h := p1.2
    let p2 := h.popKey data "text/markdown"
    let markdown := p2.1
    let h := p2.2
    let p3 := h.popKey data "image/svg+xml"
    let svg := p3.1
    let h := p3.2
    let p4 := h.popKey data "image/png"
    let png := p4.1
    let h := p4.2
    let p5 := h.popKey data "image/jpeg"
    let jpeg := p5.1
    let h := p5.2
    let p6 := h.popKey data "application/pdf"
    let pdf := p6.1
    let h := p6.2
    let p7 := h.popKey data "text/latex"
    let latex := p7.1
    let h := p7.2
    let p8 := h.popKey data "application/json"
    let json := p8.1
    let h := p8.2
    let p9 := h.popKey data "application/javascript"
    let javascript := p9.1
    let h := p9.2
    .ok (h, { text, html, markdown, svg, png, jpeg, pdf, latex, json,
              javascript, extra := data, is_main_result, raw })

/-- `Logs`: accumulated stdout and stderr lines, default empty. -/
structure Logs where
  stdout : List String := []
  stderr : List String := []
deriving DecidableEq

/-- `Execution`: results, logs, optional error. -/
structure Execution where
  results : List Result := []
  logs : Logs := {}
  error : Option Error := none

/-- The loop body of `Execution.text`: `for d in self.results: if
d.is_main_result: return d.text` with the implicit `return None`. -/
def findMainText : List Result → Option String
  | [] => none
  | d :: ds => if d.is_main_result then some d.text else findMainText ds

/-- The derived `Execution.text` property. -/
def Execution.text (e : Execution) : Option String :=
  findMainText e.results

/-- `KernelException`: a bare exception type, carrying no data of its own. -/
structure KernelException where

/-- Erasure of the ten well-known keys, in the order the constructor pops
them: this is the value of the caller's dict after construction. -/
def eraseWellKnown (d : Dict) : Dict :=
  (((((((((d.erase "text/plain").erase "text/html").erase
    "text/markdown").erase "image/svg+xml").erase "image/png").erase
    "image/jpeg").erase "application/pdf").erase "text/latex").erase
    "application/json").erase "application/javascript"

/-- The named field a well-known MIME key is extracted into (`text` wrapped
in `some` since it is mandatory), `none` for any other key. -/
def Result.fieldFor (r : Result) (k : String) : Option String :=
  if k = "text/plain" then some r.text
  else if k = "text/html" then r.html
  else if k = "text/markdown" then r.markdown
  else if k = "image/svg+xml" then r.svg
  else if k = "image/png" then r.png
  else if k = "image/jpeg" then r.jpeg
  else if k = "application/pdf" then r.pdf
  else if k = "text/latex" then r.latex
  else if k = "application/json" then r.json
  else if k = "application/javascript" then r.javascript
  else none

/-- Modelled from the spec's round-trip sentence ("the named fields together
with the extra keys reconstruct the original input exactly"): the mapping
reassembled from a Result's named fields and its `extra` dict, to be
compared key by key with the original input. -/
def reconstructKey (h : Heap) (r : Result) (k : String) : Option String :=
  if k ∈ wellKnownKeys then r.fieldFor k else (h.read r.extra).get? k

/-- A Result fixture with only the fields relevant to `Execution.text`
populated (used by concrete test cases below). -/
def mkRes (b : Bool) (t : String) : Result :=
  { text := t, html := none, markdown := none, svg := none, png := none,
    jpeg := none, pdf := none, latex := none, json := none, javascript := none,
    extra := 0, is_main_result := b, raw := 0 }

/-! ### Dictionary lemmas -/

theorem Dict.get?_cons (p : MIMEType × String) (ds : Dict) (k : String) :
    Dict.get? (p :: ds) k = if p.1 = k then some p.2 else Dict.get? ds k := by
  by_cases h : p.1 = k
  · rw [Dict.get?, List.find?_cons_of_pos _ (by simp [h]), if_pos h]
    rfl
  · rw [Dict.get?, List.find?_cons_of_neg _ (by simp [h]), if_neg h]
    rfl

theorem Dict.erase_cons (p : MIMEType × String) (ds : Dict) (k : String) :
    Dict.erase (p :: ds) k =
      if p.1 = k then ds.erase k else p :: ds.erase k := by
  by_cases h : p.1 = k <;> simp [Dict.erase, List.filter_cons, h]

theorem Dict.get?_erase (d : Dict) (k k' : String) :
    (d.erase k).get? k' = if k' = k then none else d.get? k' := by
  induction d with
  | nil => simp [Dict.erase, Dict.get?]
  | cons p ds ih =>
    by_cases hp : p.1 = k <;> by_cases hk : k' = k <;>
      by_cases hpk : p.1 = k' <;>
      simp_all [Dict.erase_cons, Dict.get?_cons]

theorem Dict.get?_erase_self (d : Dict) (k : String) : (d.erase k).get? k = none := by
  simp [Dict.get?_erase]

theorem Dict.get?_erase_ne {k k' : String} (h : k' ≠ k) (d : Dict) :
    (d.erase k).get? k' = d.get? k' := by
  simp [Dict.get?_erase, h]

/-! ### Heap lemmas -/

theorem readCells_set_self : ∀ (l : List Dict) (i : Nat) (d : Dict),
    i < l.length → readCells (l.set i d) i = d
  | [], i, d, h => by simp at h
  | _ :: _, 0, d, _ => rfl
  | _ :: ds, i + 1, d, h =>
    readCells_set_self ds i d (by simpa using h)

theorem readCells_set_ne : ∀ (l : List Dict) (i j : Nat) (d : Dict),
    i ≠ j → readCells (l.set i d) j = readCells l j
  | [], _, _, _, _ => rfl
  | _ :: _, 0, 0, _, hne => absurd rfl hne
  | _ :: _, 0, _ + 1, _, _ => rfl
  | _ :: _, _ + 1, 0, _, _ => rfl
  | _ :: ds, i + 1, j + 1, d, hne =>
    readCells_set_ne ds i j d (fun h => hne (by omega))

theorem readCells_append_lt : ∀ (l l' : List Dict) (i : Nat),
    i < l.length → readCells (l ++ l') i = readCells l i
  | [], _, i, h => by simp at h
  | _ :: _, _, 0, _ => rfl
  | _ :: ds, l', i + 1, h =>
    readCells_append_lt ds l' i (by simpa using h)

theorem readCells_append_len : ∀ (l : List Dict) (d : Dict),
    readCells (l ++ [d]) l.length = d
  | [], _ => rfl
  | _ :: ds, d => readCells_append_len ds d

theorem Heap.write_write (h : Heap) (r : Nat) (d d' : Dict) :
    (h.write r d).write r d' = h.write r d' := by
  simp [Heap.write, List.set_set]

theorem Heap.length_write (h : Heap) (r : Nat) (d : Dict) :
    ((h.write r d).cells).length = h.cells.length := by
  simp [Heap.write]

theorem Heap.read_write_self {h : Heap} {r : Nat} (hr : r < h.cells.length)
    (d : Dict) : (h.write r d).read r = d :=
  readCells_set_self h.cells r d hr

theorem Heap.read_write_ne {r s : Nat} (hne : r ≠ s) (h : Heap) (d : Dict) :
    (h.write r d).read s = h.read s :=
  readCells_set_ne h.cells r s d hne

theorem Heap.popKey_of_write {h : Heap} {r : Nat} (hr : r < h.cells.length)
    (d : Dict) (k : String) :
    (h.write r d).popKey r k = (d.get? k, h.write r (d.erase k)) := by
  simp [Heap.popKey, Heap.read_write_self hr, Heap.write_write]

theorem get?_eraseWellKnown_mem {k : String} (hk : k ∈ wellKnownKeys)
    (d : Dict) : (eraseWellKnown d).get? k = none := by
  simp only [wellKnownKeys, List.mem_cons, List.not_mem_nil, or_false] at hk
  rcases hk with h | h | h | h | h | h | h | h | h | h <;> subst h <;>
    simp [eraseWellKnown, Dict.get?_erase]

theorem get?_eraseWellKnown_not_mem {k : String} (hk : k ∉ wellKnownKeys)
    (d : Dict) : (eraseWellKnown d).get? k = d.get? k := by
  simp only [wellKnownKeys, List.mem_cons, List.not_mem_nil, or_false,
    not_or] at hk
  obtain ⟨h1, h2, h3, h4, h5, h6, h7, h8, h9, h10⟩ := hk
  simp [eraseWellKnown, Dict.get?_erase, h1, h2, h3, h4, h5, h6, h7, h8, h9,
    h10]

/-! ### Characterization of the constructor -/

/-- When "text/plain" is present, `Result.init` succeeds; the final heap has
one fresh cell (the deep copy) holding the original dict value, the caller's
cell rewritten to the value with the ten well-known keys stripped, and the
object's fields are the lookups in the original dict. -/
theorem Result.init_ok (h : Heap) (b : Bool) (data : Nat) (v : String)
    (hd : data < h.cells.length)
    (hv : (h.read data).get? "text/plain" = some v) :
    Result.init h b data =
      Except.ok
        ((⟨h.cells ++ [h.read data]⟩ : Heap).write data
           (eraseWellKnown (h.read data)),
         { text := v,
           html := (h.read data).get? "text/html",
           markdown := (h.read data).get? "text/markdown",
           svg := (h.read data).get? "image/svg+xml",
           png := (h.read data).get? "image/png",
           jpeg := (h.read data).get? "image/jpeg",
           pdf := (h.read data).get? "application/pdf",
           latex := (h.read data).get? "text/latex",
           json := (h.read data).get? "application/json",
           javascript := (h.read data).get? "application/javascript",
           extra := data, is_main_result := b, raw := h.cells.length }) := by
  have hd' : data < ((⟨h.cells ++ [h.read data]⟩ : Heap) : Heap).cells.length := by
    simp only [List.length_append, List.length_cons, List.length_nil]
    omega
  have hra : ((⟨h.cells ++ [h.read data]⟩ : Heap)).read data = h.read data :=
    readCells_append_lt h.cells [h.read data] data hd
  simp only [Result.init, Heap.alloc, hra, hv, Heap.popKey_of_write hd',
    Heap.write_write, eraseWellKnown, Dict.get?_erase]
  simp

/-! ### Execution and Error helper lemmas -/

theorem findMainText_eq_find? (l : List Result) :
    findMainText l = (l.find? (fun d => d.is_main_result)).map Result.text := by
  induction l with
  | nil => rfl
  | cons d ds ih =>
    by_cases hb : d.is_main_result <;>
      simp [findMainText, List.find?_cons, hb, ih]

theorem intercalateGo_append (s : String) : ∀ (ls : List String) (a b : String),
    String.intercalate.go (a ++ b) s ls = a ++ String.intercalate.go b s ls
  | [], _, _ => rfl
  | x :: xs, a, b => by
    show String.intercalate.go (a ++ b ++ s ++ x) s xs =
      a ++ String.intercalate.go (b ++ s ++ x) s xs
    rw [String.append_assoc, String.append_assoc,
      intercalateGo_append s xs a (b ++ (s ++ x)), ← String.append_assoc b s x]

theorem intercalate_cons_cons (s a b : String) (l : List String) :
    String.intercalate s (a :: b :: l) =
      a ++ s ++ String.intercalate s (b :: l) := by
  show String.intercalate.go (a ++ s ++ b) s l =
    a ++ s ++ String.intercalate.go b s l
  exact intercalateGo_append s l (a ++ s) b

/-! ### Claims -/

/-- C1: for every input mapping that contains the key "text/plain",
constructing a `Result(is_main_result, data)` succeeds without raising, and
the resulting object's `text` field equals the value the input mapping held
under "text/plain". -/
theorem Result.init_text_eq_plain (h : Heap) (b : Bool) (data : Nat)
    (v : String) (hd : data < h.cells.length)
    (hv : (h.read data).get? "text/plain" = some v) :
    ∃ h' r, Result.init h b data = Except.ok (h', r) ∧ r.text = v :=
  ⟨_, _, Result.init_ok h b data v hd hv, rfl⟩

/-- C1 witness: the one-entry mapping "text/plain" ↦ "hi". -/
theorem Result.init_text_eq_plain_witness :
    ∃ h' r,
      Result.init ⟨[[("text/plain", "hi")]]⟩ true 0 = Except.ok (h', r) ∧
      r.text = "hi" :=
  Result.init_text_eq_plain ⟨[[("text/plain", "hi")]]⟩ true 0 "hi"
    (by decide) (by decide)

/-- C2: for every input mapping that does not contain the key "text/plain",
constructing a Result fails with a lookup/key error; no default value is
substituted for `text`. -/
theorem Result.init_keyError_of_missing (h : Heap) (b : Bool) (data : Nat)
    (hd : data < h.cells.length)
    (hv : (h.read data).get? "text/plain" = none) :
    Result.init h b data = Except.error (PyError.keyError "text/plain") := by
  have hra : (⟨h.cells ++ [h.read data]⟩ : Heap).read data = h.read data :=
    readCells_append_lt h.cells [h.read data] data hd
  simp only [Result.init, Heap.alloc, hra, hv]

/-- C2 witness: a mapping with another key but no "text/plain". -/
theorem Result.init_keyError_of_missing_witness :
    Result.init ⟨[[("text/html", "<b>hi</b>")]]⟩ true 0 =
      Except.error (PyError.keyError "text/plain") :=
  Result.init_keyError_of_missing ⟨[[("text/html", "<b>hi</b>")]]⟩ true 0
    (by decide) (by decide)

/-- C3 counterexample: on the mapping with single entry "text/plain" ↦ "hi"
(the caller's dict object, cell 0), construction succeeds but the caller's
mapping afterwards is empty rather than unchanged: the `pop` calls remove
the well-known keys from the caller's own dict. -/
theorem Result.init_mutates_caller_cex :
    Result.init ⟨[[("text/plain", "hi")]]⟩ true 0 =
      Except.ok (⟨[[], [("text/plain", "hi")]]⟩,
        { text := "hi", html := none, markdown := none, svg := none,
          png := none, jpeg := none, pdf := none, latex := none, json := none,
          javascript := none, extra := 0, is_main_result := true, raw := 1 }) ∧
    (⟨[[], [("text/plain", "hi")]]⟩ : Heap).read 0 ≠
      (⟨[[("text/plain", "hi")]]⟩ : Heap).read 0 :=
  ⟨rfl, by decide⟩

/-- C3 amended: construction does mutate the caller's mapping: its cell is
rewritten to its original value with the ten well-known keys stripped, which
always differs from the original (at least "text/plain" is removed); only
the deep copy stored in `raw` is insulated from this. -/
theorem Result.init_strips_caller (h : Heap) (b : Bool) (data : Nat)
    (v : String) (hd : data < h.cells.length)
    (hv : (h.read data).get? "text/plain" = some v) :
    ∃ h' r, Result.init h b data = Except.ok (h', r) ∧
      h'.read data = eraseWellKnown (h.read data) ∧
      h'.read data ≠ h.read data := by
  have hd' : data < (⟨h.cells ++ [h.read data]⟩ : Heap).cells.length := by
    simp only [List.length_append, List.length_cons, List.length_nil]
    omega
  refine ⟨_, _, Result.init_ok h b data v hd hv, ?_, ?_⟩
  · exact Heap.read_write_self hd' _
  · rw [Heap.read_write_self hd']
    intro hEq
    have h1 : (eraseWellKnown (h.read data)).get? "text/plain" = none :=
      get?_eraseWellKnown_mem (by simp [wellKnownKeys]) _
    rw [hEq, hv] at h1
    exact Option.noConfusion h1

/-- C3 amended witness: the "text/plain" ↦ "hi" mapping again; afterwards
the caller's dict is empty. -/
theorem Result.init_strips_caller_witness :
    ∃ h' r,
      Result.init ⟨[[("text/plain", "hi")]]⟩ true 0 = Except.ok (h', r) ∧
      h'.read 0 = eraseWellKnown ((⟨[[("text/plain", "hi")]]⟩ : Heap).read 0) ∧
      h'.read 0 ≠ (⟨[[("text/plain", "hi")]]⟩ : Heap).read 0 :=
  Result.init_strips_caller ⟨[[("text/plain", "hi")]]⟩ true 0 "hi"
    (by decide) (by decide)

/-- C4: `raw` holds a deep copy of the original input mapping: it equals the
original value, later in-place mutation of the caller's mapping does not
change it, and the named fields together with `extra` reconstruct the
original input pointwise (round-trip lossless). -/
theorem Result.init_raw_roundtrip (h : Heap) (b : Bool) (data : Nat)
    (v : String) (hd : data < h.cells.length)
    (hv : (h.read data).get? "text/plain" = some v) :
    ∃ h' r, Result.init h b data = Except.ok (h', r) ∧
      h'.read r.raw = h.read data ∧
      (∀ d', (h'.write data d').read r.raw = h.read data) ∧
      (∀ k, reconstructKey h' r k = (h.read data).get? k) := by
  have hd' : data < (⟨h.cells ++ [h.read data]⟩ : Heap).cells.length := by
    simp only [List.length_append, List.length_cons, List.length_nil]
    omega
  have hne : data ≠ h.cells.length := Nat.ne_of_lt hd
  refine ⟨_, _, Result.init_ok h b data v hd hv, ?_, ?_, ?_⟩
  · rw [Heap.read_write_ne hne]
    exact readCells_append_len h.cells (h.read data)
  · intro d'
    rw [Heap.write_write, Heap.read_write_ne hne]
    exact readCells_append_len h.cells (h.read data)
  · intro k
    rw [reconstructKey]
    by_cases hk : k ∈ wellKnownKeys
    · rw [if_pos hk]
      simp only [wellKnownKeys, List.mem_cons, List.not_mem_nil,
        or_false] at hk
      rcases hk with hk | hk | hk | hk | hk | hk | hk | hk | hk | hk <;>
        subst hk <;> simp [Result.fieldFor, hv]
    · rw [if_neg hk]
      show ((Heap.write _ data (eraseWellKnown (h.read data))).read data).get? k
        = (h.read data).get? k
      rw [Heap.read_write_self hd']
      exact get?_eraseWellKnown_not_mem hk _

/-- C4 witness: a mapping with a well-known and a custom key. -/
theorem Result.init_raw_roundtrip_witness :
    ∃ h' r,
      Result.init ⟨[[("text/plain", "42"), ("application/x-custom", "xyz")]]⟩
        true 0 = Except.ok (h', r) ∧
      h'.read r.raw =
        (⟨[[("text/plain", "42"), ("application/x-custom", "xyz")]]⟩ :
          Heap).read 0 ∧
      (∀ d', (h'.write 0 d').read r.raw =
        (⟨[[("text/plain", "42"), ("application/x-custom", "xyz")]]⟩ :
          Heap).read 0) ∧
      (∀ k, reconstructKey h' r k =
        ((⟨[[("text/plain", "42"), ("application/x-custom", "xyz")]]⟩ :
          Heap).read 0).get? k) :=
  Result.init_raw_roundtrip
    ⟨[[("text/plain", "42"), ("application/x-custom", "xyz")]]⟩ true 0 "42"
    (by decide) (by decide)

/-- C5: for each of the ten well-known MIME keys, the corresponding named
field equals the key's lookup in the original input (its value when present,
absent when missing), and the key never occurs in `extra`. -/
theorem Result.init_wellKnown_fields (h : Heap) (b : Bool) (data : Nat)
    (v : String) (hd : data < h.cells.length)
    (hv : (h.read data).get? "text/plain" = some v) :
    ∃ h' r, Result.init h b data = Except.ok (h', r) ∧
      ∀ k ∈ wellKnownKeys,
        r.fieldFor k = (h.read data).get? k ∧
        (h'.read r.extra).get? k = none := by
  have hd' : data < (⟨h.cells ++ [h.read data]⟩ : Heap).cells.length := by
    simp only [List.length_append, List.length_cons, List.length_nil]
    omega
  refine ⟨_, _, Result.init_ok h b data v hd hv, ?_⟩
  intro k hk
  constructor
  · have hk' := hk
    simp only [wellKnownKeys, List.mem_cons, List.not_mem_nil,
      or_false] at hk'
    rcases hk' with hk' | hk' | hk' | hk' | hk' | hk' | hk' | hk' | hk' | hk' <;>
      subst hk' <;> simp [Result.fieldFor, hv]
  · show ((Heap.write _ data (eraseWellKnown (h.read data))).read data).get? k
      = none
    rw [Heap.read_write_self hd']
    exact get?_eraseWellKnown_mem hk _

/-- C5 witness: input with "text/plain" and "image/png" present, the other
well-known keys absent. -/
theorem Result.init_wellKnown_fields_witness :
    ∃ h' r,
      Result.init ⟨[[("text/plain", "42"), ("image/png", "iVBORw0K")]]⟩
        true 0 = Except.ok (h', r) ∧
      ∀ k ∈ wellKnownKeys,
        r.fieldFor k =
          ((⟨[[("text/plain", "42"), ("image/png", "iVBORw0K")]]⟩ :
            Heap).read 0).get? k ∧
        (h'.read r.extra).get? k = none :=
  Result.init_wellKnown_fields
    ⟨[[("text/plain", "42"), ("image/png", "iVBORw0K")]]⟩ true 0 "42"
    (by decide) (by decide)

/-- C6: every key of the input that is not well-known appears in `extra`
with its value unchanged, and `extra` holds no well-known keys and no keys
absent from the input. -/
theorem Result.init_extra_exact (h : Heap) (b : Bool) (data : Nat)
    (v : String) (hd : data < h.cells.length)
    (hv : (h.read data).get? "text/plain" = some v) :
    ∃ h' r, Result.init h b data = Except.ok (h', r) ∧
      (∀ k, k ∉ wellKnownKeys →
        (h'.read r.extra).get? k = (h.read data).get? k) ∧
      (∀ k, k ∈ wellKnownKeys → (h'.read r.extra).get? k = none) := by
  have hd' : data < (⟨h.cells ++ [h.read data]⟩ : Heap).cells.length := by
    simp only [List.length_append, List.length_cons, List.length_nil]
    omega
  refine ⟨_, _, Result.init_ok h b data v hd hv, ?_, ?_⟩
  · intro k hk
    show ((Heap.write _ data (eraseWellKnown (h.read data))).read data).get? k
      = (h.read data).get? k
    rw [Heap.read_write_self hd']
    exact get?_eraseWellKnown_not_mem hk _
  · intro k hk
    show ((Heap.write _ data (eraseWellKnown (h.read data))).read data).get? k
      = none
    rw [Heap.read_write_self hd']
    exact get?_eraseWellKnown_mem hk _

/-- C6 witness: the spec's scenario, "text/plain" ↦ "hi" with the custom
key "application/x-custom" ↦ "xyz". -/
theorem Result.init_extra_exact_witness :
    ∃ h' r,
      Result.init ⟨[[("text/plain", "hi"), ("application/x-custom", "xyz")]]⟩
        true 0 = Except.ok (h', r) ∧
      (∀ k, k ∉ wellKnownKeys →
        (h'.read r.extra).get? k =
          ((⟨[[("text/plain", "hi"), ("application/x-custom", "xyz")]]⟩ :
            Heap).read 0).get? k) ∧
      (∀ k, k ∈ wellKnownKeys → (h'.read r.extra).get? k = none) :=
  Result.init_extra_exact
    ⟨[[("text/plain", "hi"), ("application/x-custom", "xyz")]]⟩ true 0 "hi"
    (by decide) (by decide)

/-- C9: after construction the caller's mapping holds exactly the
non-well-known keys with their original values, and the `extra` attribute
stores the very reference to the caller's mapping, so any later in-place
update of that object is visible through `extra`. -/
theorem Result.init_extra_aliases_data (h : Heap) (b : Bool) (data : Nat)
    (v : String) (hd : data < h.cells.length)
    (hv : (h.read data).get? "text/plain" = some v) :
    ∃ h' r, Result.init h b data = Except.ok (h', r) ∧
      r.extra = data ∧
      (∀ k, (h'.read data).get? k =
        if k ∈ wellKnownKeys then none else (h.read data).get? k) ∧
      (∀ d', (h'.write data d').read r.extra = d') := by
  have hd' : data < (⟨h.cells ++ [h.read data]⟩ : Heap).cells.length := by
    simp only [List.length_append, List.length_cons, List.length_nil]
    omega
  refine ⟨_, _, Result.init_ok h b data v hd hv, rfl, ?_, ?_⟩
  · intro k
    rw [Heap.read_write_self hd']
    by_cases hk : k ∈ wellKnownKeys
    · rw [if_pos hk]
      exact get?_eraseWellKnown_mem hk _
    · rw [if_neg hk]
      exact get?_eraseWellKnown_not_mem hk _
  · intro d'
    show ((Heap.write _ data (eraseWellKnown (h.read data))).write data
      d').read data = d'
    rw [Heap.write_write]
    exact Heap.read_write_self hd' d'

/-- C9 witness: "text/plain" ↦ "hi" together with a custom key. -/
theorem Result.init_extra_aliases_data_witness :
    ∃ h' r,
      Result.init ⟨[[("text/plain", "hi"), ("application/x-pickle", "p")]]⟩
        false 0 = Except.ok (h', r) ∧
      r.extra = 0 ∧
      (∀ k, (h'.read 0).get? k =
        if k ∈ wellKnownKeys then none
        else ((⟨[[("text/plain", "hi"), ("application/x-pickle", "p")]]⟩ :
          Heap).read 0).get? k) ∧
      (∀ d', (h'.write 0 d').read r.extra = d') :=
  Result.init_extra_aliases_data
    ⟨[[("text/plain", "hi"), ("application/x-pickle", "p")]]⟩ false 0 "hi"
    (by decide) (by decide)

/-- C7: `Execution.text` scans `results` in order and returns the `text` of
the first Result flagged `is_main_result`; it returns `none` without raising
when no Result is flagged (in particular on an empty list); with two Results
of which only the second is flagged, it returns the second's text. -/
theorem Execution.text_first_main :
    (∀ e : Execution,
      e.text = (e.results.find? (fun d => d.is_main_result)).map
        Result.text) ∧
    (∀ e : Execution, (∀ r ∈ e.results, r.is_main_result = false) →
      e.text = none) ∧
    Execution.text { results := [mkRes false "first", mkRes true "second"] } =
      some "second" := by
  refine ⟨fun e => findMainText_eq_find? e.results, ?_, rfl⟩
  intro e he
  have hnone : e.results.find? (fun d => d.is_main_result) = none :=
    List.find?_eq_none.mpr (fun r hr => by simp [he r hr])
  show findMainText e.results = none
  rw [findMainText_eq_find? e.results, hnone]
  rfl

/-- C7 witness: an Execution whose single Result is not flagged as main. -/
theorem Execution.text_first_main_witness :
    Execution.text { results := [mkRes false "only"] } = none :=
  Execution.text_first_main.2.1 { results := [mkRes false "only"] }
    (fun r hr => by
      simp only [List.mem_singleton] at hr
      subst hr
      rfl)

/-- C8: `Error.traceback` is the lines of `traceback_raw` joined with
newline separators: it is "" on no lines, the line itself on one line, and
prepends "line\n" on each further line; on `traceback_raw =
["line1", "line2"]` it returns "line1\nline2". -/
theorem Error.traceback_join_spec :
    (∀ n v : String, (Error.mk n v []).traceback = "") ∧
    (∀ n v l : String, (Error.mk n v [l]).traceback = l) ∧
    (∀ (n v l : String) (ls : List String), ls ≠ [] →
      (Error.mk n v (l :: ls)).traceback =
        l ++ "\n" ++ (Error.mk n v ls).traceback) ∧
    (Error.mk "NameError" "x is not defined"
      ["line1", "line2"]).traceback = "line1\nline2" := by
  refine ⟨fun n v => rfl, fun n v l => rfl, ?_, rfl⟩
  intro n v l ls hls
  match ls with
  | [] => exact absurd rfl hls
  | b :: bs =>
    show String.intercalate "\n" (l :: b :: bs) =
      l ++ "\n" ++ String.intercalate "\n" (b :: bs)
    exact intercalate_cons_cons "\n" l b bs

/-- C8 witness: a three-line traceback, split at the first line. -/
theorem Error.traceback_join_spec_witness :
    (Error.mk "E" "m" ["a", "b", "c"]).traceback =
      "a" ++ "\n" ++ (Error.mk "E" "m" ["b", "c"]).traceback :=
  Error.traceback_join_spec.2.2.1 "E" "m" "a" ["b", "c"] (by decide)

/-- C10: on an empty `traceback_raw` the derived `traceback` is the empty
string (a string, not an absent value, and no error is raised). -/
theorem Error.traceback_empty (n v : String) :
    (Error.mk n v []).traceback = "" := rfl

end CodeInterpreter
